import Mathlib

/-!
# Relay engine of easyss (relay.go)

A shallow embedding of `relay.go`: the error classification `ErrorCanIgnore`,
the half-close `CloseWrite`, the drains `readAllIgnore` and `ReadACKFromCipher`,
the reuse handshake `tryReuse`, and the orchestrator `relay` with its two copy
tasks.  Connections are explicit states carrying the results their coming
calls will produce; every function passes those states along and reports the
operations it issued.
-/

namespace Easyss

/-! ## Go error values -/

/-- Values of `syscall.Errno` that the relay distinguishes, and all others by number. -/
inductive Errno
  | EAGAIN
  | EPIPE
  | ECONNRESET
  | ENOTCONN
  | ESHUTDOWN
  | ETIMEDOUT
  | other (code : Nat)
  deriving DecidableEq, Repr

/-- Method `Timeout` of `syscall.Errno`: true for EAGAIN (EWOULDBLOCK) and ETIMEDOUT. -/
def Errno.Timeout : Errno → Bool
  | .EAGAIN => true
  | .ETIMEDOUT => true
  | _ => false

/-- Non-nil Go error values that reach the relay. -/
inductive GoError
  /-- Sentinel io.EOF. -/
  | EOF
  /-- Sentinel io.ErrShortWrite. -/
  | ErrShortWrite
  /-- Sentinel errInvalidWrite of package io. -/
  | ErrInvalidWrite
  /-- Typed read error of a cipher stream: the peer sent FIN. -/
  | FIN
  /-- Typed read error of a cipher stream: the peer sent RST. -/
  | RST
  /-- Typed read error of a cipher stream: the peer sent ACK. -/
  | ACK
  /-- A bare syscall.Errno. -/
  | errno (e : Errno)
  /-- Sentinel os.ErrDeadlineExceeded: a net.Error whose Timeout is true. -/
  | deadlineExceeded
  /-- Pointer to net.OpError wrapping `inner`. -/
  | opError (inner : GoError)
  /-- Pointer to os.SyscallError wrapping `inner`. -/
  | syscallError (inner : GoError)
  /-- Error made by fmt.Errorf with the verb w around `inner`. -/
  | wrap (inner : GoError)
  /-- Any other error made by errors.New. -/
  | other (tag : Nat)
  deriving DecidableEq, Repr

/-- Go's `error` interface value: `none` is nil. -/
abbrev Error := Option GoError

/-- Result of the method `Timeout() bool` where the dynamic type has one. -/
def GoError.timeoutMethod : GoError → Option Bool
  | .errno e => some e.Timeout
  | .deadlineExceeded => some true
  | .opError (.syscallError i) => some (i.timeoutMethod == some true)
  | .opError i => some (i.timeoutMethod == some true)
  | .syscallError i => some (i.timeoutMethod == some true)
  | _ => none

/-- Whether the dynamic type implements `net.Error` (Error, Timeout, Temporary). -/
def GoError.isNetError : GoError → Bool
  | .errno _ => true
  | .deadlineExceeded => true
  | .opError _ => true
  | _ => false

/-- Call `errors.Is(err, target)` for a target of type syscall.Errno: walks the
Unwrap chain comparing each link with the target. -/
def GoError.is : GoError → Errno → Bool
  | .errno e, t => e == t
  | .opError i, t => i.is t
  | .syscallError i, t => i.is t
  | .wrap i, t => i.is t
  | _, _ => false

/-- Call `errors.Is(err, target)` on an interface value; nil matches no errno. -/
def errorsIs : Error → Errno → Bool
  | none, _ => false
  | some e, t => e.is t

/-- The type assertion `ne, ok := err.(net.Error); ok && ne.Timeout()`. -/
def netTimeout : Error → Bool
  | none => false
  | some e => e.isNetError && (e.timeoutMethod == some true)

/-- Function `ErrorCanIgnore` of relay.go. -/
def ErrorCanIgnore (err : Error) : Bool :=
  if netTimeout err then true
  else if errorsIs err .EPIPE then true
  else if errorsIs err .ECONNRESET then true
  else if errorsIs err .ENOTCONN then true
  else if errorsIs err .ESHUTDOWN then true
  else false

/-- The four errno values that `ErrorCanIgnore` looks for in the chain. -/
def ignorableErrnos : List Errno := [.EPIPE, .ECONNRESET, .ENOTCONN, .ESHUTDOWN]

/-- Modelled from the spec: cipherstream.FINRSTStreamErr is not under src/.  The spec
(4.2, error classification helpers) gives `is_fin_or_rst(err)`, true iff the read
status is one of the named terminal kinds Fin, Rst. -/
def FINRSTStreamErr : Error → Bool
  | some .FIN => true
  | some .RST => true
  | _ => false

/-- Modelled from the spec: cipherstream.ACKRSTStreamErr is not under src/.  The spec
(4.2, error classification helpers) gives `is_ack_rst(err)`, true iff the read
status is one of the named terminal kinds Ack, Rst. -/
def ACKRSTStreamErr : Error → Bool
  | some .ACK => true
  | some .RST => true
  | _ => false

/-! ## Connections -/

/-- Dynamic type of a net.Conn value as far as relay.go inspects it: a pointer to
cipherstream.CipherStream (`pooled` says whether its inner Conn is a pointer to
easypool.PoolConn), a pointer to net.TCPConn, or anything else. -/
inductive ConnKind
  | cipherStream (pooled : Bool)
  | tcpConn
  | otherConn
  deriving DecidableEq, Repr

/-- Control flags passed to WriteRST: util.FlagFIN and util.FlagACK. -/
inductive Flag
  | FIN
  | ACK
  deriving DecidableEq, Repr

/-- The two arguments of relay. -/
inductive Side
  | cipher
  | plaintxt
  deriving DecidableEq, Repr

/-- Result `(n, err)` of one call of Read. -/
structure ReadRes where
  n : Nat
  err : Error
  deriving DecidableEq, Repr

/-- Result `(n, err)` of one call of Write. -/
structure WriteRes where
  n : Int
  err : Error
  deriving DecidableEq, Repr

/-- Operations issued on a connection. -/
inductive Op
  /-- A call of Read and what it returned. -/
  | read (r : ReadRes)
  /-- A data write of `nr` bytes. -/
  | write (nr : Nat)
  /-- A control frame written by WriteRST. -/
  | writeRST (f : Flag)
  /-- The half-close of a TCP connection. -/
  | closeWrite
  /-- A call of SetDeadline; `zero` for the zero time, which clears the deadline. -/
  | setDeadline (zero : Bool)
  /-- A call of MarkCipherStreamUnusable. -/
  | markUnusable
  deriving DecidableEq, Repr

/-- An operation together with the connection it was issued on. -/
structure Event where
  side : Side
  op : Op
  deriving DecidableEq, Repr

/-- State of a connection.  The lists hold what the coming calls return, oldest
first; when `reads` is used up every Read returns `(0, final)`, when another list is
used up the call succeeds. -/
structure Conn where
  kind : ConnKind
  reads : List ReadRes
  final : GoError
  writes : List WriteRes
  rstWrites : List Error
  closeWrites : List Error
  deadlines : List Error
  unusable : Bool
  deriving DecidableEq, Repr

/-- Next scripted result of a call that returns only an error. -/
def nextResult : List Error → Error × List Error
  | [] => (none, [])
  | e :: rest => (e, rest)

/-- Next result of a call of Write with `nr` bytes: the scripted one, or a full
write once the script is used up. -/
def nextWrite : List WriteRes → Nat → WriteRes × List WriteRes
  | [], nr => (⟨nr, none⟩, [])
  | w :: rest, _ => (w, rest)

/-- Method WriteRST of a cipher stream: emits one control frame. -/
def Conn.WriteRST (c : Conn) : Error × Conn :=
  ((nextResult c.rstWrites).1, { c with rstWrites := (nextResult c.rstWrites).2 })

/-- Method CloseWrite of a TCP connection. -/
def Conn.tcpCloseWrite (c : Conn) : Error × Conn :=
  ((nextResult c.closeWrites).1, { c with closeWrites := (nextResult c.closeWrites).2 })

/-- Method SetDeadline of the transport under a cipher stream. -/
def Conn.SetDeadline (c : Conn) : Error × Conn :=
  ((nextResult c.deadlines).1, { c with deadlines := (nextResult c.deadlines).2 })

/-! ## Functions of relay.go -/

/-- Function `CloseWrite` of relay.go; `none` is the panic of the unchecked type
assertion to a TCP connection. -/
def CloseWrite (who : Side) (conn : Conn) : Option (Error × Conn × List Event) :=
  match conn.kind with
  | .cipherStream _ =>
    some (conn.WriteRST.1, conn.WriteRST.2, [⟨who, .writeRST .FIN⟩])
  | .tcpConn =>
    let err := conn.tcpCloseWrite.1
    if ErrorCanIgnore err then some (none, conn.tcpCloseWrite.2, [⟨who, .closeWrite⟩])
    else some (err, conn.tcpCloseWrite.2, [⟨who, .closeWrite⟩])
  | .otherConn => none

/-- Loop `for { _, err = conn.Read(buf); if err != nil { break } }` over the pending
reads: returns the error that ended it, the reads left, and the calls made. -/
def drainLoop (who : Side) (final : GoError) : List ReadRes → GoError × List ReadRes × List Event
  | [] => (final, [], [⟨who, .read ⟨0, some final⟩⟩])
  | r :: rest =>
    match r.err with
    | some e => (e, rest, [⟨who, .read r⟩])
    | none =>
      ((drainLoop who final rest).1, (drainLoop who final rest).2.1,
        ⟨who, .read r⟩ :: (drainLoop who final rest).2.2)

/-- Function `readAllIgnore` of relay.go. -/
def readAllIgnore (who : Side) (conn : Conn) : Error × Conn × List Event :=
  let d := drainLoop who conn.final conn.reads
  (some d.1, { conn with reads := d.2.1 }, d.2.2)

/-- Function `WriteACKToCipher` of relay.go. -/
def WriteACKToCipher (who : Side) (conn : Conn) : Error × Conn × List Event :=
  match conn.kind with
  | .cipherStream _ => (conn.WriteRST.1, conn.WriteRST.2, [⟨who, .writeRST .ACK⟩])
  | _ => (none, conn, [])

/-- Function `ReadACKFromCipher` of relay.go. -/
def ReadACKFromCipher (who : Side) (conn : Conn) : Bool × Conn × List Event :=
  let d := drainLoop who conn.final conn.reads
  (ACKRSTStreamErr (some d.1), { conn with reads := d.2.1 }, d.2.2)

/-- Function `MarkCipherStreamUnusable` of relay.go. -/
def MarkCipherStreamUnusable (cipher : Conn) : Bool × Conn :=
  match cipher.kind with
  | .cipherStream true => (true, { cipher with unusable := true })
  | _ => (false, cipher)

/-- Function `SetCipherDeadline` of relay.go; `zero` says the time passed is the
zero time. -/
def SetCipherDeadline (who : Side) (cipher : Conn) (zero : Bool) : Error × Conn × List Event :=
  match cipher.kind with
  | .cipherStream _ => (cipher.SetDeadline.1, cipher.SetDeadline.2, [⟨who, .setDeadline zero⟩])
  | _ => (none, cipher, [])

/-- Function `tryReuse` of relay.go. -/
def tryReuse (cipher : Conn) : Bool × Conn × List Event :=
  let s1 := SetCipherDeadline .cipher cipher false
  if s1.1 ≠ none then (false, s1.2.1, s1.2.2)
  else
    let s2 := WriteACKToCipher .cipher s1.2.1
    if s2.1 ≠ none then (false, s2.2.1, s1.2.2 ++ s2.2.2)
    else
      let s3 := ReadACKFromCipher .cipher s2.2.1
      if !s3.1 then (false, s3.2.1, s1.2.2 ++ s2.2.2 ++ s3.2.2)
      else
        let s4 := SetCipherDeadline .cipher s3.2.1 true
        if s4.1 ≠ none then (false, s4.2.1, s1.2.2 ++ s2.2.2 ++ s3.2.2 ++ s4.2.2)
        else (true, s4.2.1, s1.2.2 ++ s2.2.2 ++ s3.2.2 ++ s4.2.2)

/-- What io.CopyBuffer leaves behind: its two results, the reads and writes still
pending on the two connections, and the calls it made. -/
structure CopyOut where
  written : Int
  err : Error
  reads : List ReadRes
  writes : List WriteRes
  events : List Event
  deriving DecidableEq, Repr

/-- Error returned by io.CopyBuffer when the read error `er` ends the loop: EOF is
reported as nil. -/
def copyErr (er : GoError) : Error :=
  if er = .EOF then none else some er

/-- The values `(nw, ew)` after the validity check that io.CopyBuffer applies to the
result of Write. -/
def checkedWrite (nr : Nat) (w : WriteRes) : WriteRes :=
  if w.n < 0 ∨ (nr : Int) < w.n then
    ⟨0, if w.err = none then some .ErrInvalidWrite else w.err⟩
  else w

/-- The loop of io.CopyBuffer (the generic path of package io), run over the reads
pending on the source.  `final` is the error of every Read once they are used up,
`ws` the pending write results of the destination, `written` the running count. -/
def copyLoop (dst src : Side) (final : GoError) : List ReadRes → List WriteRes → Int → CopyOut
  | [], ws, written =>
    ⟨written, copyErr final, [], ws, [⟨src, .read ⟨0, some final⟩⟩]⟩
  | r :: rs, ws, written =>
    if 0 < r.n then
      let w := checkedWrite r.n (nextWrite ws r.n).1
      let ws1 := (nextWrite ws r.n).2
      let written1 := written + w.n
      if w.err ≠ none then
        ⟨written1, w.err, rs, ws1, [⟨src, .read r⟩, ⟨dst, .write r.n⟩]⟩
      else if (r.n : Int) ≠ w.n then
        ⟨written1, some .ErrShortWrite, rs, ws1, [⟨src, .read r⟩, ⟨dst, .write r.n⟩]⟩
      else
        match r.err with
        | some er => ⟨written1, copyErr er, rs, ws1, [⟨src, .read r⟩, ⟨dst, .write r.n⟩]⟩
        | none =>
          let c := copyLoop dst src final rs ws1 written1
          { c with events := ⟨src, .read r⟩ :: ⟨dst, .write r.n⟩ :: c.events }
    else
      match r.err with
      | some er => ⟨written, copyErr er, rs, ws, [⟨src, .read r⟩]⟩
      | none =>
        let c := copyLoop dst src final rs ws written
        { c with events := ⟨src, .read r⟩ :: c.events }

/-- The error as the methods ReadFrom and WriteTo of a TCP connection hand it on:
nil and EOF as they are, every other error inside a new net.OpError. -/
def wrapOpError : Error → Error
  | none => none
  | some .EOF => some .EOF
  | some e => some (.opError e)

/-- The error of a copy that ran through an endpoint of kind `k`: io.CopyBuffer hands
the copy to WriteTo of a TCP source and to ReadFrom of a TCP destination, which wrap
the error; a cipher stream and any other connection have neither method. -/
def throughEndpoint (k : ConnKind) (err : Error) : Error :=
  match k with
  | .tcpConn => wrapOpError err
  | _ => err

/-- Call `io.CopyBuffer(dst, src, buf)`: the labels say which connection is which.
The bytes move by the loop of package io; the error passes through ReadFrom of the
destination and then WriteTo of the source where they are TCP connections. -/
def copyBuffer (dstSide srcSide : Side) (dst src : Conn) : CopyOut :=
  let c := copyLoop dstSide srcSide src.final src.reads dst.writes 0
  { c with err := throughEndpoint src.kind (throughEndpoint dst.kind c.err) }

/-- The local type `res` of relay. -/
structure res where
  N : Int
  Err : Error
  TryReuse : Bool
  deriving DecidableEq, Repr

/-- What a copy task leaves behind: the value it sends on its channel, the two
connections, and the calls it made in program order. -/
structure TaskOut where
  res : res
  cipher : Conn
  plaintxt : Conn
  events : List Event
  deriving DecidableEq, Repr

/-- The first goroutine of relay, which sends on ch2: copies cipher to plaintxt,
half-closes plaintxt, then settles its verdict.  `none` is a panic. -/
def downTask (cipher plaintxt : Conn) : Option TaskOut :=
  let c := copyBuffer .plaintxt .cipher plaintxt cipher
  let cipher1 := { cipher with reads := c.reads }
  let plaintxt1 := { plaintxt with writes := c.writes }
  match CloseWrite .plaintxt plaintxt1 with
  | none => none
  | some (_, plaintxt2, ev1) =>
    if c.err ≠ none then
      if !FINRSTStreamErr c.err then
        let s := SetCipherDeadline .cipher cipher1 false
        if s.1 ≠ none then
          some ⟨⟨c.written, c.err, false⟩, s.2.1, plaintxt2, c.events ++ ev1 ++ s.2.2⟩
        else
          let d := readAllIgnore .cipher s.2.1
          if !FINRSTStreamErr d.1 then
            some ⟨⟨c.written, c.err, false⟩, d.2.1, plaintxt2, c.events ++ ev1 ++ s.2.2 ++ d.2.2⟩
          else
            some ⟨⟨c.written, c.err, true⟩, d.2.1, plaintxt2, c.events ++ ev1 ++ s.2.2 ++ d.2.2⟩
      else some ⟨⟨c.written, c.err, true⟩, cipher1, plaintxt2, c.events ++ ev1⟩
    else some ⟨⟨c.written, c.err, true⟩, cipher1, plaintxt2, c.events ++ ev1⟩

/-- The second goroutine of relay, which sends on ch1: copies plaintxt to cipher,
then closes the write half of cipher.  `none` is a panic. -/
def upTask (cipher plaintxt : Conn) : Option TaskOut :=
  let c := copyBuffer .cipher .plaintxt cipher plaintxt
  let plaintxt1 := { plaintxt with reads := c.reads }
  let cipher1 := { cipher with writes := c.writes }
  match CloseWrite .cipher cipher1 with
  | none => none
  | some (err, cipher2, ev1) =>
    if err ≠ none then some ⟨⟨c.written, c.err, false⟩, cipher2, plaintxt1, c.events ++ ev1⟩
    else some ⟨⟨c.written, c.err, true⟩, cipher2, plaintxt1, c.events ++ ev1⟩

/-- The two channels of relay. -/
inductive Chan
  | ch1
  | ch2
  deriving DecidableEq, Repr

/-- The variables written by the result-collecting loop of relay. -/
structure Collected where
  res1 : res
  res2 : res
  n1 : Int
  n2 : Int
  deriving DecidableEq, Repr

/-- One iteration of the select: `up` is the value sent on ch1, `down` the one sent
on ch2, and the channel argument is the case that fires. -/
def selectStep (up down : res) (s : Collected) : Chan → Collected
  | .ch1 => { s with res1 := up, n1 := up.N }
  | .ch2 => { s with res2 := down, n2 := down.N }

/-- The order in which the two channels deliver: each holds exactly one value. -/
def arrival (upFirst : Bool) : List Chan :=
  if upFirst then [.ch1, .ch2] else [.ch2, .ch1]

/-- The loop `for i := 0; i < 2; i++ { select ... }` of relay, started from the zero
values of its variables. -/
def collect (upFirst : Bool) (up down : res) : Collected :=
  (arrival upFirst).foldl (selectStep up down) ⟨⟨0, none, false⟩, ⟨0, none, false⟩, 0, 0⟩

/-- What relay returns and leaves behind.  `reuse` is its local variable of that
name; `downEvents` and `upEvents` are the calls of the two goroutines, `mainEvents`
those relay makes itself after both have delivered. -/
structure RelayOut where
  n1 : Int
  n2 : Int
  reuse : Bool
  cipher : Conn
  plaintxt : Conn
  downEvents : List Event
  upEvents : List Event
  mainEvents : List Event
  deriving DecidableEq, Repr

/-- Function `relay` of relay.go.  The two goroutines touch different parts of the
two connections, so the states are passed through one and then the other;
`upFirst` says which channel delivers first.  `none` is a panic. -/
def relay (upFirst : Bool) (cipher plaintxt : Conn) : Option RelayOut :=
  match downTask cipher plaintxt with
  | none => none
  | some d =>
    match upTask d.cipher d.plaintxt with
    | none => none
    | some u =>
      let r := collect upFirst u.res d.res
      let t := if r.res1.TryReuse && r.res2.TryReuse then tryReuse u.cipher
        else (false, u.cipher, [])
      if !t.1 then
        some ⟨r.n1, r.n2, t.1, (MarkCipherStreamUnusable t.2.1).2, u.plaintxt,
          d.events, u.events, t.2.2 ++ [⟨.cipher, .markUnusable⟩]⟩
      else
        some ⟨r.n1, r.n2, t.1, t.2.1, u.plaintxt, d.events, u.events, t.2.2⟩

/-- Merge of the calls of two concurrent tasks: `true` in the schedule lets the
first task make its next call, `false` the second. -/
def interleave : List Bool → List Event → List Event → List Event
  | _, [], ys => ys
  | _, xs, [] => xs
  | [], x :: xs, y :: ys => (x :: xs) ++ (y :: ys)
  | true :: s, x :: xs, y :: ys => x :: interleave s xs (y :: ys)
  | false :: s, x :: xs, y :: ys => y :: interleave s (x :: xs) ys

/-- The sequence of calls of one run of relay under a schedule of its two
goroutines: their calls merged, then the calls relay makes itself. -/
def RelayOut.trace (o : RelayOut) (sched : List Bool) : List Event :=
  interleave sched o.downEvents o.upEvents ++ o.mainEvents

/-- A data write. -/
def Op.isDataWrite : Op → Bool
  | .write _ => true
  | _ => false

/-- Calls on the write half of plaintxt: data writes and the half-close. -/
def plainWriteHalf (e : Event) : Bool :=
  decide (e.side = .plaintxt) && (e.op.isDataWrite || decide (e.op = .closeWrite))

/-- Calls of the up direction on the write half of cipher: data writes and the FIN
control frame. -/
def cipherUpHalf (e : Event) : Bool :=
  decide (e.side = .cipher) && (e.op.isDataWrite || decide (e.op = .writeRST .FIN))

/-- The data writes on one connection among a list of calls. -/
def dataWrites (side : Side) (evs : List Event) : List Event :=
  evs.filter (fun e => decide (e.side = side) && e.op.isDataWrite)

/-- The call of MarkCipherStreamUnusable made by relay. -/
def markEvent : Event := ⟨.cipher, .markUnusable⟩

/-! ## Sample connections -/

/-- A pooled cipher stream whose next control write fails with EPIPE. -/
def brokenPipeStream : Conn :=
  ⟨.cipherStream true, [], .EOF, [], [some (.errno .EPIPE)], [], [], false⟩

/-- A pooled cipher stream on which the peer answers ACK and the ACK write succeeds,
but clearing the deadline fails. -/
def clearFails : Conn :=
  ⟨.cipherStream true, [⟨0, some .ACK⟩], .ACK, [], [none], [], [none, some (.other 0)], false⟩

/-- A pooled cipher stream on which every call succeeds and the next read returns
RST. -/
def resetInDrain : Conn :=
  ⟨.cipherStream true, [], .RST, [], [none], [], [none, none], false⟩

/-- Spec scenario 1: the peer echoes five bytes, sends FIN, then answers ACK. -/
def echoCipher : Conn :=
  ⟨.cipherStream true, [⟨5, none⟩, ⟨0, some .FIN⟩, ⟨0, some .ACK⟩], .ACK, [], [], [], [], false⟩

/-- Spec scenario 1: the client sends five bytes, then half-closes. -/
def echoPlain : Conn :=
  ⟨.tcpConn, [⟨5, none⟩], .EOF, [], [], [], [], false⟩

/-- Spec scenario 3: the peer sends sixteen bytes, then RST; every later read returns
RST again. -/
def resetCipher : Conn :=
  ⟨.cipherStream true, [⟨16, none⟩], .RST, [], [], [], [], false⟩

/-- A client that closes at once. -/
def idlePlain : Conn :=
  ⟨.tcpConn, [], .EOF, [], [], [], [], false⟩

/-- The cipher side ends with a plain end of stream, then answers ACK. -/
def eofAckCipher : Conn :=
  ⟨.cipherStream true, [⟨0, some .EOF⟩], .ACK, [], [], [], [], false⟩

/-- Spec scenario 4: the plaintext read returns ECONNRESET after a hundred bytes. -/
def resetPlain : Conn :=
  ⟨.tcpConn, [⟨100, none⟩], .opError (.syscallError (.errno .ECONNRESET)), [], [], [], [],
    false⟩

/-- The cipher read fails with EIO; the next read returns RST. -/
def stallThenResetCipher : Conn :=
  ⟨.cipherStream true, [⟨0, some (.errno (.other 5))⟩], .RST, [], [], [], [], false⟩

/-- The cipher side delivers five bytes and then a plain end of stream; the next
control write on it fails with EPIPE. -/
def eofBrokenFinCipher : Conn :=
  ⟨.cipherStream true, [⟨5, none⟩], .EOF, [], [some (.errno .EPIPE)], [], [], false⟩

/-- The cipher side delivers five bytes and then a plain end of stream. -/
def eofCipher : Conn :=
  ⟨.cipherStream true, [⟨5, none⟩], .EOF, [], [], [], [], false⟩

/-! ## Error classification -/

theorem ErrorCanIgnore_iff (err : Error) :
    ErrorCanIgnore err = true ↔
      netTimeout err = true ∨ ∃ e ∈ ignorableErrnos, errorsIs err e = true := by
  unfold ErrorCanIgnore ignorableErrnos
  by_cases h0 : netTimeout err = true
  · simp [h0]
  · by_cases h1 : errorsIs err .EPIPE = true
    · simp [h1]
    · by_cases h2 : errorsIs err .ECONNRESET = true
      · simp [h2]
      · by_cases h3 : errorsIs err .ENOTCONN = true
        · simp [h3]
        · by_cases h4 : errorsIs err .ESHUTDOWN = true
          · simp [h4]
          · simp [h0, h1, h2, h3, h4]

/-- C6 (as stated, refuted): the bare errno ETIMEDOUT is none of EPIPE, ECONNRESET,
ENOTCONN, ESHUTDOWN, yet `ErrorCanIgnore` returns true for it, because syscall.Errno
implements net.Error and its Timeout method answers true. -/
theorem errorCanIgnore_other_errno_true :
    Errno.ETIMEDOUT ∉ ignorableErrnos ∧
      ErrorCanIgnore (some (.errno .ETIMEDOUT)) = true := by
  decide

/-- C6 (amended): for every error value, nil and wrapped ones included,
`ErrorCanIgnore` is true iff the value is a net.Error whose Timeout is true or its
chain holds one of EPIPE, ECONNRESET, ENOTCONN, ESHUTDOWN; it is false for nil; and
for a bare errno it is true exactly for those four and for the errnos whose own
Timeout is true (EAGAIN, ETIMEDOUT), false for every other. -/
theorem errorCanIgnore_classification (err : Error) (e : Errno) :
    (ErrorCanIgnore err = true ↔
      netTimeout err = true ∨ ∃ t ∈ ignorableErrnos, errorsIs err t = true) ∧
    ErrorCanIgnore none = false ∧
    (ErrorCanIgnore (some (.errno e)) = true ↔ e ∈ ignorableErrnos ∨ e.Timeout = true) := by
  refine ⟨ErrorCanIgnore_iff err, by decide, ?_⟩
  rw [ErrorCanIgnore_iff]
  simp only [netTimeout, GoError.isNetError, GoError.timeoutMethod, ignorableErrnos, errorsIs,
    GoError.is]
  cases e <;> simp [Errno.Timeout]

/-! ## Half-close -/

/-- C5 (as stated, refuted): on a cipher stream whose FIN write fails with EPIPE, an
error that `ErrorCanIgnore` classifies as benign, `CloseWrite` returns that error and
not nil. -/
theorem closeWrite_cipher_keeps_benign :
    ErrorCanIgnore (nextResult brokenPipeStream.rstWrites).1 = true ∧
      (CloseWrite .cipher brokenPipeStream).map (fun r => r.1)
        = some (some (.errno .EPIPE)) := by
  decide

/-- C5 (amended): on a cipher stream `CloseWrite` emits one FIN control frame and
returns the error of that write unchanged, benign or not; on a TCP connection it
invokes the half-close and returns nil when that fails with an error
`ErrorCanIgnore` accepts, and the error unchanged otherwise. -/
theorem closeWrite_by_kind (who : Side) (p : Bool) (c : Conn) :
    CloseWrite who { c with kind := .cipherStream p } =
        some ((nextResult c.rstWrites).1,
          { c with kind := .cipherStream p, rstWrites := (nextResult c.rstWrites).2 },
          [⟨who, .writeRST .FIN⟩]) ∧
    CloseWrite who { c with kind := .tcpConn } =
        some (if ErrorCanIgnore (nextResult c.closeWrites).1 then none
            else (nextResult c.closeWrites).1,
          { c with kind := .tcpConn, closeWrites := (nextResult c.closeWrites).2 },
          [⟨who, .closeWrite⟩]) := by
  constructor
  · simp [CloseWrite, Conn.WriteRST]
  · simp only [CloseWrite, Conn.tcpCloseWrite]
    split <;> rfl

/-! ## Reuse handshake -/

theorem tryReuse_iff (c : Conn) :
    (tryReuse c).1 = true ↔
      (SetCipherDeadline .cipher c false).1 = none ∧
      (WriteACKToCipher .cipher (SetCipherDeadline .cipher c false).2.1).1 = none ∧
      (ReadACKFromCipher .cipher
        (WriteACKToCipher .cipher (SetCipherDeadline .cipher c false).2.1).2.1).1 = true ∧
      (SetCipherDeadline .cipher (ReadACKFromCipher .cipher
        (WriteACKToCipher .cipher (SetCipherDeadline .cipher c false).2.1).2.1).2.1 true).1
          = none := by
  unfold tryReuse
  simp only []
  split_ifs <;> simp_all

theorem ACKRSTStreamErr_iff (e : GoError) :
    ACKRSTStreamErr (some e) = true ↔ e = .ACK ∨ e = .RST := by
  cases e <;> simp [ACKRSTStreamErr]

theorem FINRSTStreamErr_iff (e : GoError) :
    FINRSTStreamErr (some e) = true ↔ e = .FIN ∨ e = .RST := by
  cases e <;> simp [FINRSTStreamErr]

/-- C2 (as stated, refuted): on `clearFails` the ACK write succeeds and the drain ends
with ACK, yet `tryReuse` returns false because clearing the deadline fails; on
`resetInDrain` the drain ends with RST, not ACK, yet `tryReuse` returns true. -/
theorem tryReuse_not_only_ack :
    ((WriteACKToCipher .cipher (SetCipherDeadline .cipher clearFails false).2.1).1 = none ∧
      (drainLoop .cipher clearFails.final clearFails.reads).1 = .ACK ∧
      (tryReuse clearFails).1 = false) ∧
    ((drainLoop .cipher resetInDrain.final resetInDrain.reads).1 = .RST ∧
      (tryReuse resetInDrain).1 = true) := by
  decide

/-- C2 (amended): on a cipher stream `tryReuse` returns true iff setting the deadline
succeeded, the ACK control write succeeded, the drain that follows ended with a
status `ACKRSTStreamErr` accepts (ACK or RST), and clearing the deadline
succeeded. -/
theorem tryReuse_granted_iff (p : Bool) (c : Conn) :
    (tryReuse { c with kind := .cipherStream p }).1 = true ↔
      (nextResult c.deadlines).1 = none ∧
      (nextResult c.rstWrites).1 = none ∧
      ((drainLoop .cipher c.final c.reads).1 = .ACK ∨
        (drainLoop .cipher c.final c.reads).1 = .RST) ∧
      (nextResult (nextResult c.deadlines).2).1 = none := by
  rw [tryReuse_iff]
  simp [SetCipherDeadline, WriteACKToCipher, ReadACKFromCipher, Conn.SetDeadline,
    Conn.WriteRST, ACKRSTStreamErr_iff]

/-! ## The copy tasks and relay -/

theorem closeWrite_frame (who : Side) (c : Conn) (r : Error × Conn × List Event)
    (h : CloseWrite who c = some r) :
    r.2.1.kind = c.kind ∧ r.2.1.reads = c.reads ∧ r.2.1.final = c.final ∧
      r.2.1.writes = c.writes ∧ r.2.1.deadlines = c.deadlines ∧
      r.2.1.unusable = c.unusable := by
  unfold CloseWrite at h
  split at h
  · simp only [Option.some.injEq] at h
    subst h
    simp [Conn.WriteRST]
  · simp only [] at h
    split at h <;>
    · simp only [Option.some.injEq] at h
      subst h
      simp [Conn.tcpCloseWrite]
  · simp at h

theorem setCipherDeadline_frame (who : Side) (c : Conn) (z : Bool) :
    (SetCipherDeadline who c z).2.1.kind = c.kind ∧
      (SetCipherDeadline who c z).2.1.reads = c.reads ∧
      (SetCipherDeadline who c z).2.1.final = c.final ∧
      (SetCipherDeadline who c z).2.1.writes = c.writes ∧
      (SetCipherDeadline who c z).2.1.rstWrites = c.rstWrites ∧
      (SetCipherDeadline who c z).2.1.closeWrites = c.closeWrites ∧
      (SetCipherDeadline who c z).2.1.unusable = c.unusable := by
  unfold SetCipherDeadline
  split <;> simp [Conn.SetDeadline]

theorem downTask_frame (cipher plaintxt : Conn) (d : TaskOut)
    (h : downTask cipher plaintxt = some d) :
    d.res.N = (copyBuffer .plaintxt .cipher plaintxt cipher).written ∧
      d.res.Err = (copyBuffer .plaintxt .cipher plaintxt cipher).err ∧
      d.cipher.kind = cipher.kind ∧ d.cipher.writes = cipher.writes ∧
      d.cipher.rstWrites = cipher.rstWrites ∧ d.cipher.closeWrites = cipher.closeWrites ∧
      d.cipher.unusable = cipher.unusable ∧
      d.plaintxt.kind = plaintxt.kind ∧ d.plaintxt.reads = plaintxt.reads ∧
      d.plaintxt.final = plaintxt.final := by
  unfold downTask at h
  simp only [] at h
  split at h
  · simp at h
  · rename_i ce p2 ev hcw
    have hf := closeWrite_frame _ _ _ hcw
    simp only [] at hf
    have hs := setCipherDeadline_frame .cipher
      { cipher with reads := (copyBuffer .plaintxt .cipher plaintxt cipher).reads } false
    simp only [] at hs
    split_ifs at h <;>
    · simp only [Option.some.injEq] at h
      subst h
      simp [readAllIgnore, hf, hs]

theorem upTask_congr (c1 p1 c2 p2 : Conn)
    (hk : c1.kind = c2.kind) (hw : c1.writes = c2.writes) (hr : c1.rstWrites = c2.rstWrites)
    (hc : c1.closeWrites = c2.closeWrites) (hpk : p1.kind = p2.kind)
    (hpr : p1.reads = p2.reads) (hpf : p1.final = p2.final) :
    (upTask c1 p1).map (fun u => (u.res, u.events)) =
      (upTask c2 p2).map (fun u => (u.res, u.events)) := by
  have hcopy : copyBuffer .cipher .plaintxt c1 p1 = copyBuffer .cipher .plaintxt c2 p2 := by
    simp [copyBuffer, hk, hpk, hw, hpr, hpf]
  unfold upTask
  simp only [hcopy]
  unfold CloseWrite
  simp only [hk]
  cases c2.kind with
  | cipherStream p =>
    simp only [Conn.WriteRST, hr]
    split_ifs <;> simp
  | tcpConn =>
    simp only [Conn.tcpCloseWrite, hc]
    by_cases hi : ErrorCanIgnore (nextResult c2.closeWrites).1 = true
    · simp [hi]
    · simp only [hi]
      by_cases hn : (nextResult c2.closeWrites).1 = none
      · simp [hn]
      · simp [hn]
  | otherConn => simp

theorem upTask_after_downTask (cipher plaintxt : Conn) (d : TaskOut)
    (h : downTask cipher plaintxt = some d) :
    (upTask d.cipher d.plaintxt).map (fun u => (u.res, u.events)) =
      (upTask cipher plaintxt).map (fun u => (u.res, u.events)) := by
  obtain ⟨_, _, hk, hw, hr, hc, _, hpk, hpr, hpf⟩ := downTask_frame cipher plaintxt d h
  exact upTask_congr _ _ _ _ hk hw hr hc hpk hpr hpf

theorem closeWrite_tcp (who : Side) (c : Conn) (h : c.kind = .tcpConn) :
    CloseWrite who c =
      some (if ErrorCanIgnore (nextResult c.closeWrites).1 then none
          else (nextResult c.closeWrites).1,
        { c with closeWrites := (nextResult c.closeWrites).2 }, [⟨who, .closeWrite⟩]) := by
  simp only [CloseWrite, h, Conn.tcpCloseWrite]
  split <;> rfl

theorem closeWrite_cipher (who : Side) (c : Conn) (p : Bool) (h : c.kind = .cipherStream p) :
    CloseWrite who c =
      some ((nextResult c.rstWrites).1,
        { c with rstWrites := (nextResult c.rstWrites).2 }, [⟨who, .writeRST .FIN⟩]) := by
  simp only [CloseWrite, h, Conn.WriteRST]

theorem upTask_cipherStream (cipher plaintxt : Conn) (p : Bool)
    (hc : cipher.kind = .cipherStream p) :
    upTask cipher plaintxt = some
      ⟨⟨(copyBuffer .cipher .plaintxt cipher plaintxt).written,
          (copyBuffer .cipher .plaintxt cipher plaintxt).err,
          decide ((nextResult cipher.rstWrites).1 = none)⟩,
        { cipher with
          writes := (copyBuffer .cipher .plaintxt cipher plaintxt).writes,
          rstWrites := (nextResult cipher.rstWrites).2 },
        { plaintxt with reads := (copyBuffer .cipher .plaintxt cipher plaintxt).reads },
        (copyBuffer .cipher .plaintxt cipher plaintxt).events ++ [⟨.cipher, .writeRST .FIN⟩]⟩ := by
  simp only [upTask]
  rw [closeWrite_cipher _ _ p (by simpa using hc)]
  by_cases h : (nextResult cipher.rstWrites).1 = none
  · simp [h]
  · simp [h]

theorem downTask_accepted (cipher plaintxt : Conn) (hp : plaintxt.kind = .tcpConn)
    (h : (copyBuffer .plaintxt .cipher plaintxt cipher).err = none ∨
      FINRSTStreamErr (copyBuffer .plaintxt .cipher plaintxt cipher).err = true) :
    downTask cipher plaintxt = some
      ⟨⟨(copyBuffer .plaintxt .cipher plaintxt cipher).written,
          (copyBuffer .plaintxt .cipher plaintxt cipher).err, true⟩,
        { cipher with reads := (copyBuffer .plaintxt .cipher plaintxt cipher).reads },
        { plaintxt with
          writes := (copyBuffer .plaintxt .cipher plaintxt cipher).writes,
          closeWrites := (nextResult plaintxt.closeWrites).2 },
        (copyBuffer .plaintxt .cipher plaintxt cipher).events ++ [⟨.plaintxt, .closeWrite⟩]⟩ := by
  simp only [downTask]
  rw [closeWrite_tcp _ _ (by simpa using hp)]
  rcases h with h | h
  · simp [h]
  · by_cases h0 : (copyBuffer .plaintxt .cipher plaintxt cipher).err = none
    · simp [h0]
    · simp [h, h0]

theorem downTask_drained (cipher plaintxt : Conn) (p : Bool)
    (hc : cipher.kind = .cipherStream p) (hp : plaintxt.kind = .tcpConn)
    (he : (copyBuffer .plaintxt .cipher plaintxt cipher).err ≠ none)
    (hf : FINRSTStreamErr (copyBuffer .plaintxt .cipher plaintxt cipher).err = false) :
    downTask cipher plaintxt = some
      (if (nextResult cipher.deadlines).1 = none then
        ⟨⟨(copyBuffer .plaintxt .cipher plaintxt cipher).written,
            (copyBuffer .plaintxt .cipher plaintxt cipher).err,
            FINRSTStreamErr (some (drainLoop .cipher cipher.final
              (copyBuffer .plaintxt .cipher plaintxt cipher).reads).1)⟩,
          { cipher with
            reads := (drainLoop .cipher cipher.final
              (copyBuffer .plaintxt .cipher plaintxt cipher).reads).2.1,
            deadlines := (nextResult cipher.deadlines).2 },
          { plaintxt with
            writes := (copyBuffer .plaintxt .cipher plaintxt cipher).writes,
            closeWrites := (nextResult plaintxt.closeWrites).2 },
          (copyBuffer .plaintxt .cipher plaintxt cipher).events ++ [⟨.plaintxt, .closeWrite⟩] ++
            [⟨.cipher, .setDeadline false⟩] ++
            (drainLoop .cipher cipher.final
              (copyBuffer .plaintxt .cipher plaintxt cipher).reads).2.2⟩
      else
        ⟨⟨(copyBuffer .plaintxt .cipher plaintxt cipher).written,
            (copyBuffer .plaintxt .cipher plaintxt cipher).err, false⟩,
          { cipher with
            reads := (copyBuffer .plaintxt .cipher plaintxt cipher).reads,
            deadlines := (nextResult cipher.deadlines).2 },
          { plaintxt with
            writes := (copyBuffer .plaintxt .cipher plaintxt cipher).writes,
            closeWrites := (nextResult plaintxt.closeWrites).2 },
          (copyBuffer .plaintxt .cipher plaintxt cipher).events ++ [⟨.plaintxt, .closeWrite⟩] ++
            [⟨.cipher, .setDeadline false⟩]⟩) := by
  simp only [downTask]
  rw [closeWrite_tcp _ _ (by simpa using hp)]
  simp only [SetCipherDeadline, hc, Conn.SetDeadline, readAllIgnore]
  by_cases hd : (nextResult cipher.deadlines).1 = none
  · by_cases hx : FINRSTStreamErr (some (drainLoop .cipher cipher.final
        (copyBuffer .plaintxt .cipher plaintxt cipher).reads).1) = true
    · simp [he, hf, hd, hx]
    · simp [he, hf, hd, hx]
  · simp [he, hf, hd]

theorem collect_eq (upFirst : Bool) (up down : res) :
    collect upFirst up down = ⟨up, down, up.N, down.N⟩ := by
  cases upFirst <;> rfl

theorem relay_eq (upFirst : Bool) (cipher plaintxt : Conn) (d u : TaskOut)
    (hd : downTask cipher plaintxt = some d) (hu : upTask d.cipher d.plaintxt = some u) :
    relay upFirst cipher plaintxt =
      if u.res.TryReuse && d.res.TryReuse then
        if (tryReuse u.cipher).1 then
          some ⟨u.res.N, d.res.N, true, (tryReuse u.cipher).2.1, u.plaintxt, d.events, u.events,
            (tryReuse u.cipher).2.2⟩
        else
          some ⟨u.res.N, d.res.N, false, (MarkCipherStreamUnusable (tryReuse u.cipher).2.1).2,
            u.plaintxt, d.events, u.events,
            (tryReuse u.cipher).2.2 ++ [⟨.cipher, .markUnusable⟩]⟩
      else
        some ⟨u.res.N, d.res.N, false, (MarkCipherStreamUnusable u.cipher).2, u.plaintxt,
          d.events, u.events, [⟨.cipher, .markUnusable⟩]⟩ := by
  simp only [relay, hd, hu, collect_eq]
  by_cases h1 : (u.res.TryReuse && d.res.TryReuse) = true
  · simp only [h1, if_true]
    by_cases h2 : (tryReuse u.cipher).1 = true
    · simp [h2]
    · simp [h2]
  · simp [h1]

theorem downTask_isSome (cipher plaintxt : Conn) (hp : plaintxt.kind = .tcpConn) :
    ∃ d, downTask cipher plaintxt = some d := by
  simp only [downTask]
  rw [closeWrite_tcp _ _ (by simpa using hp)]
  simp only []
  split_ifs <;> exact ⟨_, rfl⟩

theorem copyBuffer_up_after_down (cipher plaintxt : Conn) (d : TaskOut)
    (hd : downTask cipher plaintxt = some d) :
    copyBuffer .cipher .plaintxt d.cipher d.plaintxt =
      copyBuffer .cipher .plaintxt cipher plaintxt := by
  obtain ⟨_, _, hk, hw, _, _, _, hpk, hpr, hpf⟩ := downTask_frame cipher plaintxt d hd
  simp [copyBuffer, hk, hpk, hw, hpr, hpf]

theorem session_tasks (cipher plaintxt : Conn) (p : Bool)
    (hc : cipher.kind = .cipherStream p) (hp : plaintxt.kind = .tcpConn) :
    ∃ d u, downTask cipher plaintxt = some d ∧ upTask d.cipher d.plaintxt = some u ∧
      d.res.N = (copyBuffer .plaintxt .cipher plaintxt cipher).written ∧
      d.res.Err = (copyBuffer .plaintxt .cipher plaintxt cipher).err ∧
      u.res = ⟨(copyBuffer .cipher .plaintxt cipher plaintxt).written,
        (copyBuffer .cipher .plaintxt cipher plaintxt).err,
        decide ((nextResult cipher.rstWrites).1 = none)⟩ ∧
      u.events =
        (copyBuffer .cipher .plaintxt cipher plaintxt).events ++ [⟨.cipher, .writeRST .FIN⟩] := by
  obtain ⟨d, hd⟩ := downTask_isSome cipher plaintxt hp
  have hf := downTask_frame cipher plaintxt d hd
  obtain ⟨hN, hE, hk, _, hr, _, _, _, _, _⟩ := hf
  have hu := upTask_cipherStream d.cipher d.plaintxt p (hk.trans hc)
  rw [copyBuffer_up_after_down cipher plaintxt d hd, hr] at hu
  exact ⟨d, _, hd, hu, hN, hE, rfl, rfl⟩

/-- C4: for every session of a cipher stream and a TCP connection, and for either
order in which the two channels deliver, relay returns: n1 is the count of the
plaintxt-to-cipher copy and n2 the count of the cipher-to-plaintxt copy. -/
theorem relay_counts (upFirst : Bool) (cipher plaintxt : Conn) (p : Bool)
    (hc : cipher.kind = .cipherStream p) (hp : plaintxt.kind = .tcpConn) :
    ∃ out, relay upFirst cipher plaintxt = some out ∧
      out.n1 = (copyBuffer .cipher .plaintxt cipher plaintxt).written ∧
      out.n2 = (copyBuffer .plaintxt .cipher plaintxt cipher).written := by
  obtain ⟨d, u, hd, hu, hN, _, hur, _⟩ := session_tasks cipher plaintxt p hc hp
  have hr := relay_eq upFirst cipher plaintxt d u hd hu
  have hn1 : u.res.N = (copyBuffer .cipher .plaintxt cipher plaintxt).written := by rw [hur]
  split_ifs at hr <;> exact ⟨_, hr, hn1, hN⟩

theorem drainLoop_events (P : Event → Prop) (who : Side) (final : GoError)
    (h : ∀ r, P ⟨who, .read r⟩) (rs : List ReadRes) :
    ∀ e ∈ (drainLoop who final rs).2.2, P e := by
  induction rs with
  | nil => simp [drainLoop, h]
  | cons r rest ih =>
    unfold drainLoop
    split
    · simp [h]
    · intro e he
      simp only [List.mem_cons] at he
      rcases he with he | he
      · rw [he]; exact h r
      · exact ih e he

theorem tryReuse_events (P : Event → Prop) (c : Conn)
    (h1 : ∀ z, P ⟨.cipher, .setDeadline z⟩) (h2 : P ⟨.cipher, .writeRST .ACK⟩)
    (h3 : ∀ r, P ⟨.cipher, .read r⟩) :
    ∀ e ∈ (tryReuse c).2.2, P e := by
  have hs : ∀ (x : Conn) (z : Bool), ∀ e ∈ (SetCipherDeadline .cipher x z).2.2, P e := by
    intro x z e he
    unfold SetCipherDeadline at he
    split at he
    · simp only [List.mem_singleton] at he
      rw [he]; exact h1 z
    · simp at he
  have hw : ∀ (x : Conn), ∀ e ∈ (WriteACKToCipher .cipher x).2.2, P e := by
    intro x e he
    unfold WriteACKToCipher at he
    split at he
    · simp only [List.mem_singleton] at he
      rw [he]; exact h2
    · simp at he
  have hr : ∀ (x : Conn), ∀ e ∈ (ReadACKFromCipher .cipher x).2.2, P e := by
    intro x e he
    exact drainLoop_events P .cipher x.final h3 x.reads e he
  intro e he
  unfold tryReuse at he
  simp only [] at he
  split_ifs at he <;> simp only [List.mem_append] at he
  · exact hs _ _ e he
  · rcases he with he | he
    · exact hs _ _ e he
    · exact hw _ e he
  · rcases he with (he | he) | he
    · exact hs _ _ e he
    · exact hw _ e he
    · exact hr _ e he
  · rcases he with ((he | he) | he) | he
    · exact hs _ _ e he
    · exact hw _ e he
    · exact hr _ e he
    · exact hs _ _ e he
  · rcases he with ((he | he) | he) | he
    · exact hs _ _ e he
    · exact hw _ e he
    · exact hr _ e he
    · exact hs _ _ e he

theorem markEvent_not_mem_tryReuse (c : Conn) : markEvent ∉ (tryReuse c).2.2 := by
  intro h
  exact tryReuse_events (fun e => e ≠ markEvent) c (by intro z; simp [markEvent])
    (by simp [markEvent]) (by intro r; simp [markEvent]) markEvent h rfl

theorem relay_outcome (upFirst : Bool) (cipher plaintxt : Conn) (d u : TaskOut)
    (hd : downTask cipher plaintxt = some d) (hu : upTask d.cipher d.plaintxt = some u) :
    ∃ out, relay upFirst cipher plaintxt = some out ∧
      (markEvent ∈ out.mainEvents ↔ out.reuse = false) ∧
      (out.reuse = true ↔
        u.res.TryReuse = true ∧ d.res.TryReuse = true ∧ (tryReuse u.cipher).1 = true) ∧
      ((u.res.TryReuse && d.res.TryReuse) = false →
        out.mainEvents = [markEvent] ∧ out.cipher = (MarkCipherStreamUnusable u.cipher).2) ∧
      ((u.res.TryReuse && d.res.TryReuse) = true →
        out.mainEvents = (tryReuse u.cipher).2.2 ++
          (if (tryReuse u.cipher).1 then [] else [markEvent])) := by
  have hr := relay_eq upFirst cipher plaintxt d u hd hu
  have hm := markEvent_not_mem_tryReuse u.cipher
  by_cases h1 : (u.res.TryReuse && d.res.TryReuse) = true
  · by_cases h2 : (tryReuse u.cipher).1 = true
    · simp only [h1, h2, if_true] at hr
      refine ⟨_, hr, ?_, ?_, ?_, ?_⟩
      · simp [hm]
      · simp only [Bool.and_eq_true] at h1
        simp [h1, h2]
      · simp [h1]
      · simp [h2]
    · simp only [h1, h2, if_true] at hr
      refine ⟨_, hr, ?_, ?_, ?_, ?_⟩
      · simp [markEvent]
      · simp [h2]
      · simp [h1]
      · simp [h2, markEvent]
  · simp only [h1] at hr
    refine ⟨_, hr, ?_, ?_, ?_, ?_⟩
    · simp [markEvent]
    · simp only [Bool.and_eq_true] at h1
      simp only [Bool.false_eq_true, false_iff]
      tauto
    · simp [markEvent]
    · simp [h1]

theorem relay_reuse_of_down_accepted (upFirst : Bool) (cipher plaintxt : Conn) (d u : TaskOut)
    (hd : downTask cipher plaintxt = some d) (hu : upTask d.cipher d.plaintxt = some u)
    (ht : d.res.TryReuse = true) :
    ∃ out, relay upFirst cipher plaintxt = some out ∧
      out.reuse = (u.res.TryReuse && (tryReuse u.cipher).1) := by
  have hr := relay_eq upFirst cipher plaintxt d u hd hu
  rw [ht] at hr
  by_cases h1 : u.res.TryReuse = true
  · by_cases h2 : (tryReuse u.cipher).1 = true
    · simp only [h1, h2, Bool.and_self, if_true] at hr
      exact ⟨_, hr, by simp [h1, h2]⟩
    · simp only [h1, h2, Bool.and_self, if_true] at hr
      exact ⟨_, hr, by simp [h2]⟩
  · simp only [h1, Bool.and_true] at hr
    exact ⟨_, hr, by simp [h1]⟩

/-- C10 (amended): when the cipher-to-plaintxt copy returns no error, the down task
half-closes plaintxt and stops: no deadline is set and no read is made after the copy
(the cipher state is the one the copy left) and its verdict is true; reuse in relay is
then granted exactly when the up verdict is true and the handshake returns true. -/
theorem down_clean_no_drain (cipher plaintxt : Conn) (hp : plaintxt.kind = .tcpConn)
    (he : (copyBuffer .plaintxt .cipher plaintxt cipher).err = none) :
    ∃ d, downTask cipher plaintxt = some d ∧
      d.res.TryReuse = true ∧ d.res.Err = none ∧
      d.cipher = { cipher with reads := (copyBuffer .plaintxt .cipher plaintxt cipher).reads } ∧
      d.events =
        (copyBuffer .plaintxt .cipher plaintxt cipher).events ++ [⟨.plaintxt, .closeWrite⟩] ∧
      ∀ (upFirst : Bool) (u : TaskOut), upTask d.cipher d.plaintxt = some u →
        ∃ out, relay upFirst cipher plaintxt = some out ∧
          out.reuse = (u.res.TryReuse && (tryReuse u.cipher).1) := by
  have hd := downTask_accepted cipher plaintxt hp (Or.inl he)
  refine ⟨_, hd, rfl, he, rfl, rfl, ?_⟩
  intro upFirst u hu
  exact relay_reuse_of_down_accepted upFirst cipher plaintxt _ u hd hu rfl

/-- C1 (amended): when the cipher-to-plaintxt copy into a TCP connection ends with
the RST status, the error reaches relay inside a net.OpError, so the down task sets
the deadline and drains; its verdict is true iff the deadline was set and the drain
ended with FIN or RST, as it does when the RST status persists.  Reuse is then granted
exactly when both verdicts are true and the handshake returns true, and relay calls
MarkCipherStreamUnusable exactly when it is not. -/
theorem down_rst_verdict (cipher plaintxt : Conn) (p : Bool)
    (hc : cipher.kind = .cipherStream p) (hp : plaintxt.kind = .tcpConn)
    (he : (copyBuffer .plaintxt .cipher plaintxt cipher).err = some (.opError .RST)) :
    ∃ d, downTask cipher plaintxt = some d ∧ d.res.Err = some (.opError .RST) ∧
      (d.res.TryReuse = true ↔
        (nextResult cipher.deadlines).1 = none ∧
          ((drainLoop .cipher cipher.final
              (copyBuffer .plaintxt .cipher plaintxt cipher).reads).1 = .FIN ∨
            (drainLoop .cipher cipher.final
              (copyBuffer .plaintxt .cipher plaintxt cipher).reads).1 = .RST)) ∧
      ∀ (upFirst : Bool) (u : TaskOut), upTask d.cipher d.plaintxt = some u →
        ∃ out, relay upFirst cipher plaintxt = some out ∧
          (out.reuse = true ↔
            u.res.TryReuse = true ∧ d.res.TryReuse = true ∧ (tryReuse u.cipher).1 = true) ∧
          (markEvent ∈ out.mainEvents ↔ out.reuse = false) := by
  have hd := downTask_drained cipher plaintxt p hc hp (by rw [he]; simp) (by rw [he]; rfl)
  refine ⟨_, hd, ?_, ?_, ?_⟩
  · by_cases h : (nextResult cipher.deadlines).1 = none
    · simp [h, he]
    · simp [h, he]
  · by_cases h : (nextResult cipher.deadlines).1 = none
    · simp [h, FINRSTStreamErr_iff]
    · simp [h]
  · intro upFirst u hu
    obtain ⟨out, ho, hmark, hreuse, _⟩ := relay_outcome upFirst cipher plaintxt _ u hd hu
    exact ⟨out, ho, hreuse, hmark⟩

/-- C3 (amended): whatever error ended the plaintxt-to-cipher copy, the up verdict is
true exactly when the FIN control write succeeds; reuse is granted exactly when that
write succeeds, the down verdict is true and the handshake returns true. -/
theorem up_verdict_is_fin_write (upFirst : Bool) (cipher plaintxt : Conn) (p : Bool)
    (hc : cipher.kind = .cipherStream p) (hp : plaintxt.kind = .tcpConn) :
    ∃ d u out, downTask cipher plaintxt = some d ∧ upTask d.cipher d.plaintxt = some u ∧
      relay upFirst cipher plaintxt = some out ∧
      u.res.Err = (copyBuffer .cipher .plaintxt cipher plaintxt).err ∧
      (u.res.TryReuse = true ↔ (nextResult cipher.rstWrites).1 = none) ∧
      (out.reuse = true ↔
        (nextResult cipher.rstWrites).1 = none ∧ d.res.TryReuse = true ∧
          (tryReuse u.cipher).1 = true) := by
  obtain ⟨d, u, hd, hu, _, _, hur, _⟩ := session_tasks cipher plaintxt p hc hp
  obtain ⟨out, ho, _, hreuse, _⟩ := relay_outcome upFirst cipher plaintxt d u hd hu
  have ht : u.res.TryReuse = true ↔ (nextResult cipher.rstWrites).1 = none := by
    rw [hur]; simp
  refine ⟨d, u, out, hd, hu, ho, by rw [hur], ht, ?_⟩
  rw [hreuse, ht]

/-- C9 (amended): when the cipher-to-plaintxt copy ends with an error that
`FINRSTStreamErr` rejects, the down task half-closes plaintxt, sets a deadline on the
cipher side and, if that succeeded, drains the reads until one returns an error; its
verdict is true iff the deadline was set and the drain ended with FIN or RST. -/
theorem down_drain_verdict (cipher plaintxt : Conn) (p : Bool)
    (hc : cipher.kind = .cipherStream p) (hp : plaintxt.kind = .tcpConn)
    (he : (copyBuffer .plaintxt .cipher plaintxt cipher).err ≠ none)
    (hf : FINRSTStreamErr (copyBuffer .plaintxt .cipher plaintxt cipher).err = false) :
    ∃ d, downTask cipher plaintxt = some d ∧
      (d.res.TryReuse = true ↔
        (nextResult cipher.deadlines).1 = none ∧
          ((drainLoop .cipher cipher.final
              (copyBuffer .plaintxt .cipher plaintxt cipher).reads).1 = .FIN ∨
            (drainLoop .cipher cipher.final
              (copyBuffer .plaintxt .cipher plaintxt cipher).reads).1 = .RST)) ∧
      d.events =
        (copyBuffer .plaintxt .cipher plaintxt cipher).events ++ [⟨.plaintxt, .closeWrite⟩] ++
          [⟨.cipher, .setDeadline false⟩] ++
          (if (nextResult cipher.deadlines).1 = none then
            (drainLoop .cipher cipher.final
              (copyBuffer .plaintxt .cipher plaintxt cipher).reads).2.2
          else []) ∧
      d.cipher.reads =
        (if (nextResult cipher.deadlines).1 = none then
          (drainLoop .cipher cipher.final
            (copyBuffer .plaintxt .cipher plaintxt cipher).reads).2.1
        else (copyBuffer .plaintxt .cipher plaintxt cipher).reads) := by
  have hd := downTask_drained cipher plaintxt p hc hp he hf
  refine ⟨_, hd, ?_, ?_, ?_⟩
  · by_cases h : (nextResult cipher.deadlines).1 = none
    · simp [h, FINRSTStreamErr_iff]
    · simp [h]
  · by_cases h : (nextResult cipher.deadlines).1 = none
    · simp [h]
    · simp [h]
  · by_cases h : (nextResult cipher.deadlines).1 = none
    · simp [h]
    · simp [h]

theorem copyLoop_events (P : Event → Prop) (dst src : Side) (final : GoError)
    (hr : ∀ r, P ⟨src, .read r⟩) (hw : ∀ n, P ⟨dst, .write n⟩) (rs : List ReadRes) :
    ∀ (ws : List WriteRes) (n : Int), ∀ e ∈ (copyLoop dst src final rs ws n).events, P e := by
  induction rs with
  | nil =>
    intro ws n e he
    simp only [copyLoop, List.mem_singleton] at he
    rw [he]; exact hr _
  | cons r rest ih =>
    intro ws n e he
    unfold copyLoop at he
    simp only [] at he
    split_ifs at he
    · simp only [List.mem_cons, List.mem_singleton, List.not_mem_nil, or_false] at he
      rcases he with he | he
      · rw [he]; exact hr _
      · rw [he]; exact hw _
    · simp only [List.mem_cons, List.mem_singleton, List.not_mem_nil, or_false] at he
      rcases he with he | he
      · rw [he]; exact hr _
      · rw [he]; exact hw _
    · split at he
      · simp only [List.mem_cons, List.mem_singleton, List.not_mem_nil, or_false] at he
        rcases he with he | he
        · rw [he]; exact hr _
        · rw [he]; exact hw _
      · simp only [List.mem_cons] at he
        rcases he with he | he | he
        · rw [he]; exact hr _
        · rw [he]; exact hw _
        · exact ih _ _ e he
    · split at he
      · simp only [List.mem_singleton] at he
        rw [he]; exact hr _
      · simp only [List.mem_cons] at he
        rcases he with he | he
        · rw [he]; exact hr _
        · exact ih _ _ e he

theorem interleave_filter_left (p : Event → Bool) (s : List Bool) (xs ys : List Event)
    (h : ∀ y ∈ ys, p y = false) :
    (interleave s xs ys).filter p = xs.filter p := by
  have hnil : ∀ zs : List Event, (∀ y ∈ zs, p y = false) → zs.filter p = [] := by
    intro zs hz
    rw [List.filter_eq_nil_iff]
    intro a ha
    simp [hz a ha]
  induction s generalizing xs ys with
  | nil =>
    cases xs with
    | nil => simp [interleave, hnil ys h]
    | cons x xs =>
      cases ys with
      | nil => simp [interleave]
      | cons y ys =>
        simp only [interleave]
        rw [List.filter_append, hnil (y :: ys) h, List.append_nil]
  | cons b s ih =>
    cases xs with
    | nil => simp [interleave, hnil ys h]
    | cons x xs =>
      cases ys with
      | nil => simp [interleave]
      | cons y ys =>
        cases b with
        | true =>
          simp only [interleave, List.filter_cons]
          rw [ih xs (y :: ys) h]
        | false =>
          have hy : p y = false := h y (by simp)
          simp only [interleave]
          rw [List.filter_cons, hy]
          simp only [Bool.false_eq_true, if_false]
          exact ih (x :: xs) ys (fun z hz => h z (by simp [hz]))

theorem interleave_filter_right (p : Event → Bool) (s : List Bool) (xs ys : List Event)
    (h : ∀ x ∈ xs, p x = false) :
    (interleave s xs ys).filter p = ys.filter p := by
  have hnil : ∀ zs : List Event, (∀ y ∈ zs, p y = false) → zs.filter p = [] := by
    intro zs hz
    rw [List.filter_eq_nil_iff]
    intro a ha
    simp [hz a ha]
  induction s generalizing xs ys with
  | nil =>
    cases xs with
    | nil => simp [interleave]
    | cons x xs =>
      cases ys with
      | nil => simp [interleave, hnil (x :: xs) h]
      | cons y ys =>
        simp only [interleave]
        rw [List.filter_append, hnil (x :: xs) h, List.nil_append]
  | cons b s ih =>
    cases xs with
    | nil => simp [interleave]
    | cons x xs =>
      cases ys with
      | nil => simp [interleave, hnil (x :: xs) h]
      | cons y ys =>
        cases b with
        | true =>
          have hx : p x = false := h x (by simp)
          simp only [interleave]
          rw [List.filter_cons, hx]
          simp only [Bool.false_eq_true, if_false]
          exact ih xs (y :: ys) (fun z hz => h z (by simp [hz]))
        | false =>
          simp only [interleave, List.filter_cons]
          rw [ih (x :: xs) ys h]

theorem downTask_events_shape (cipher plaintxt : Conn) (d : TaskOut)
    (hp : plaintxt.kind = .tcpConn) (hd : downTask cipher plaintxt = some d) :
    ∃ tail, d.events =
        (copyBuffer .plaintxt .cipher plaintxt cipher).events ++ ⟨.plaintxt, .closeWrite⟩ :: tail ∧
      ∀ e ∈ tail, plainWriteHalf e = false ∧ cipherUpHalf e = false := by
  have hs : ∀ (x : Conn) (z : Bool), ∀ e ∈ (SetCipherDeadline .cipher x z).2.2,
      plainWriteHalf e = false ∧ cipherUpHalf e = false := by
    intro x z e he
    unfold SetCipherDeadline at he
    split at he
    · simp only [List.mem_singleton] at he
      rw [he]; exact ⟨rfl, rfl⟩
    · simp at he
  have hr : ∀ (x : Conn), ∀ e ∈ (readAllIgnore .cipher x).2.2,
      plainWriteHalf e = false ∧ cipherUpHalf e = false := by
    intro x e he
    exact drainLoop_events (fun e => plainWriteHalf e = false ∧ cipherUpHalf e = false)
      .cipher x.final (fun r => ⟨rfl, rfl⟩) x.reads e he
  simp only [downTask] at hd
  rw [closeWrite_tcp _ _ (by simpa using hp)] at hd
  simp only [] at hd
  split_ifs at hd <;> simp only [Option.some.injEq] at hd <;> subst hd
  · refine ⟨_, by simp only [List.append_assoc, List.singleton_append]; rfl, ?_⟩
    intro e he
    exact hs _ _ e he
  · refine ⟨_ ++ _, by simp only [List.append_assoc, List.singleton_append]; rfl, ?_⟩
    intro e he
    rcases List.mem_append.mp he with he | he
    · exact hs _ _ e he
    · exact hr _ e he
  · refine ⟨_ ++ _, by simp only [List.append_assoc, List.singleton_append]; rfl, ?_⟩
    intro e he
    rcases List.mem_append.mp he with he | he
    · exact hs _ _ e he
    · exact hr _ e he
  · exact ⟨[], by simp, by simp⟩
  · exact ⟨[], by simp, by simp⟩

theorem relay_events (upFirst : Bool) (cipher plaintxt : Conn) (d u : TaskOut)
    (hd : downTask cipher plaintxt = some d) (hu : upTask d.cipher d.plaintxt = some u) :
    ∃ out, relay upFirst cipher plaintxt = some out ∧
      out.downEvents = d.events ∧ out.upEvents = u.events ∧
      ∀ e ∈ out.mainEvents, plainWriteHalf e = false ∧ cipherUpHalf e = false := by
  have hr := relay_eq upFirst cipher plaintxt d u hd hu
  have ht : ∀ e ∈ (tryReuse u.cipher).2.2, plainWriteHalf e = false ∧ cipherUpHalf e = false :=
    tryReuse_events (fun e => plainWriteHalf e = false ∧ cipherUpHalf e = false) u.cipher
      (fun _ => ⟨rfl, rfl⟩) ⟨rfl, rfl⟩ (fun _ => ⟨rfl, rfl⟩)
  split_ifs at hr
  · exact ⟨_, hr, rfl, rfl, ht⟩
  · refine ⟨_, hr, rfl, rfl, ?_⟩
    intro e he
    rcases List.mem_append.mp he with he | he
    · exact ht e he
    · simp only [List.mem_singleton] at he
      rw [he]; exact ⟨rfl, rfl⟩
  · refine ⟨_, hr, rfl, rfl, ?_⟩
    intro e he
    simp only [List.mem_singleton] at he
    rw [he]; exact ⟨rfl, rfl⟩

theorem filter_eq_nil_of_false (p : Event → Bool) (zs : List Event)
    (hz : ∀ y ∈ zs, p y = false) : zs.filter p = [] := by
  rw [List.filter_eq_nil_iff]
  intro a ha
  simp [hz a ha]

theorem copy_down_filters (cipher plaintxt : Conn) :
    (copyBuffer .plaintxt .cipher plaintxt cipher).events.filter plainWriteHalf =
        dataWrites .plaintxt (copyBuffer .plaintxt .cipher plaintxt cipher).events ∧
      ∀ e ∈ (copyBuffer .plaintxt .cipher plaintxt cipher).events, cipherUpHalf e = false := by
  constructor
  · unfold dataWrites
    apply List.filter_congr
    exact copyLoop_events
      (fun e => plainWriteHalf e = (decide (e.side = .plaintxt) && e.op.isDataWrite))
      .plaintxt .cipher cipher.final (fun _ => rfl) (fun _ => rfl) cipher.reads plaintxt.writes 0
  · exact copyLoop_events (fun e => cipherUpHalf e = false)
      .plaintxt .cipher cipher.final (fun _ => rfl) (fun _ => rfl) cipher.reads plaintxt.writes 0

theorem copy_up_filters (cipher plaintxt : Conn) :
    (copyBuffer .cipher .plaintxt cipher plaintxt).events.filter cipherUpHalf =
        dataWrites .cipher (copyBuffer .cipher .plaintxt cipher plaintxt).events ∧
      ∀ e ∈ (copyBuffer .cipher .plaintxt cipher plaintxt).events, plainWriteHalf e = false := by
  constructor
  · unfold dataWrites
    apply List.filter_congr
    exact copyLoop_events
      (fun e => cipherUpHalf e = (decide (e.side = .cipher) && e.op.isDataWrite))
      .cipher .plaintxt plaintxt.final (fun _ => rfl) (fun _ => rfl) plaintxt.reads cipher.writes 0
  · exact copyLoop_events (fun e => plainWriteHalf e = false)
      .cipher .plaintxt plaintxt.final (fun _ => rfl) (fun _ => rfl) plaintxt.reads cipher.writes 0

theorem count_after_dataWrites (side : Side) (evs : List Event) (e : Event)
    (he : e.op.isDataWrite = false) : (dataWrites side evs ++ [e]).count e = 1 := by
  have h0 : (dataWrites side evs).count e = 0 := by
    rw [List.count_eq_zero]
    intro hm
    unfold dataWrites at hm
    rw [List.mem_filter] at hm
    simp [he] at hm
  rw [List.count_append, h0]
  simp

/-- C7: in every session of a cipher stream and a TCP connection, under every schedule
of the two goroutines, the calls on the write half of plaintxt are the data writes of
the cipher-to-plaintxt copy followed by one half-close, the data and FIN calls on
cipher are the data writes of the plaintxt-to-cipher copy followed by one FIN control
write; each task issues its close right after its copy, once, before relay's own
calls. -/
theorem relay_half_close_order (upFirst : Bool) (cipher plaintxt : Conn) (p : Bool)
    (hc : cipher.kind = .cipherStream p) (hp : plaintxt.kind = .tcpConn) :
    ∃ out, relay upFirst cipher plaintxt = some out ∧
      (∃ tail, out.downEvents =
        (copyBuffer .plaintxt .cipher plaintxt cipher).events ++
          ⟨.plaintxt, .closeWrite⟩ :: tail) ∧
      out.upEvents =
        (copyBuffer .cipher .plaintxt cipher plaintxt).events ++ [⟨.cipher, .writeRST .FIN⟩] ∧
      ∀ sched : List Bool,
        (out.trace sched).filter plainWriteHalf =
          dataWrites .plaintxt (copyBuffer .plaintxt .cipher plaintxt cipher).events ++
            [⟨.plaintxt, .closeWrite⟩] ∧
        (out.trace sched).filter cipherUpHalf =
          dataWrites .cipher (copyBuffer .cipher .plaintxt cipher plaintxt).events ++
            [⟨.cipher, .writeRST .FIN⟩] ∧
        (out.trace sched).count ⟨.plaintxt, .closeWrite⟩ = 1 ∧
        (out.trace sched).count ⟨.cipher, .writeRST .FIN⟩ = 1 := by
  obtain ⟨d, u, hd, hu, _, _, _, hue⟩ := session_tasks cipher plaintxt p hc hp
  obtain ⟨out, ho, hde, hupe, hmain⟩ := relay_events upFirst cipher plaintxt d u hd hu
  obtain ⟨tail, htail, htf⟩ := downTask_events_shape cipher plaintxt d hp hd
  obtain ⟨hdf, hdc⟩ := copy_down_filters cipher plaintxt
  obtain ⟨huf, hupl⟩ := copy_up_filters cipher plaintxt
  have hupP : ∀ e ∈ u.events, plainWriteHalf e = false := by
    intro e he
    rw [hue] at he
    rcases List.mem_append.mp he with he | he
    · exact hupl e he
    · simp only [List.mem_singleton] at he
      rw [he]; rfl
  have hdC : ∀ e ∈ d.events, cipherUpHalf e = false := by
    intro e he
    rw [htail] at he
    rcases List.mem_append.mp he with he | he
    · exact hdc e he
    · rcases List.mem_cons.mp he with he | he
      · rw [he]; rfl
      · exact (htf e he).2
  have hP : ∀ sched : List Bool, (out.trace sched).filter plainWriteHalf =
      dataWrites .plaintxt (copyBuffer .plaintxt .cipher plaintxt cipher).events ++
        [⟨.plaintxt, .closeWrite⟩] := by
    intro sched
    unfold RelayOut.trace
    rw [List.filter_append, hde, hupe, interleave_filter_left _ _ _ _ hupP,
      filter_eq_nil_of_false _ _ (fun e he => (hmain e he).1), List.append_nil, htail,
      List.filter_append, hdf, List.filter_cons,
      filter_eq_nil_of_false _ _ (fun e he => (htf e he).1)]
    rfl
  have hC : ∀ sched : List Bool, (out.trace sched).filter cipherUpHalf =
      dataWrites .cipher (copyBuffer .cipher .plaintxt cipher plaintxt).events ++
        [⟨.cipher, .writeRST .FIN⟩] := by
    intro sched
    unfold RelayOut.trace
    rw [List.filter_append, hde, hupe, interleave_filter_right _ _ _ _ hdC,
      filter_eq_nil_of_false _ _ (fun e he => (hmain e he).2), List.append_nil, hue,
      List.filter_append, huf]
    rfl
  refine ⟨out, ho, ⟨tail, by rw [hde, htail]⟩, by rw [hupe, hue], ?_⟩
  intro sched
  refine ⟨hP sched, hC sched, ?_, ?_⟩
  · rw [← List.count_filter (show plainWriteHalf ⟨.plaintxt, .closeWrite⟩ = true from rfl),
      hP sched]
    exact count_after_dataWrites _ _ _ rfl
  · rw [← List.count_filter (show cipherUpHalf ⟨.cipher, .writeRST .FIN⟩ = true from rfl),
      hC sched]
    exact count_after_dataWrites _ _ _ rfl

/-- C8: in every session of a cipher stream and a TCP connection relay returns, and it
calls MarkCipherStreamUnusable iff reuse is denied; reuse is granted exactly when both
verdicts are true and `tryReuse` then returns true; when a verdict is false relay makes
no call of the handshake, only the marking call. -/
theorem relay_marks_iff_denied (upFirst : Bool) (cipher plaintxt : Conn) (p : Bool)
    (hc : cipher.kind = .cipherStream p) (hp : plaintxt.kind = .tcpConn) :
    ∃ d u out, downTask cipher plaintxt = some d ∧ upTask d.cipher d.plaintxt = some u ∧
      relay upFirst cipher plaintxt = some out ∧
      (markEvent ∈ out.mainEvents ↔ out.reuse = false) ∧
      (out.reuse = true ↔
        u.res.TryReuse = true ∧ d.res.TryReuse = true ∧ (tryReuse u.cipher).1 = true) ∧
      ((u.res.TryReuse && d.res.TryReuse) = false →
        out.mainEvents = [markEvent] ∧ out.cipher = (MarkCipherStreamUnusable u.cipher).2) ∧
      ((u.res.TryReuse && d.res.TryReuse) = true →
        out.mainEvents = (tryReuse u.cipher).2.2 ++
          (if (tryReuse u.cipher).1 then [] else [markEvent])) := by
  obtain ⟨d, u, hd, hu, _⟩ := session_tasks cipher plaintxt p hc hp
  obtain ⟨out, ho, h⟩ := relay_outcome upFirst cipher plaintxt d u hd hu
  exact ⟨d, u, out, hd, hu, ho, h⟩

/-! ## Refutations of the claims as stated -/

/-- C1 (as stated, refuted): in spec scenario 3 the cipher read returns RST after
sixteen bytes and the copy ends with that error, yet relay grants reuse and does not
mark the connection: the drain and the handshake both end with the same RST, which
the two classifiers accept. -/
theorem relay_reuses_after_rst :
    (copyBuffer .plaintxt .cipher idlePlain resetCipher).err = some (.opError .RST) ∧
      (relay true resetCipher idlePlain).map
          (fun o => (o.n2, o.reuse, o.cipher.unusable, decide (markEvent ∈ o.mainEvents)))
        = some (16, true, false, false) := by
  decide

/-- C3 (as stated, refuted): in spec scenario 4 the plaintxt-to-cipher copy ends with
ECONNRESET after a hundred bytes and the FIN write succeeds; the cipher side ends with
a plain end of stream and the peer answers ACK, and relay grants reuse and does not
mark the connection. -/
theorem relay_reuses_after_local_error :
    (copyBuffer .cipher .plaintxt eofAckCipher resetPlain).err
        = some (.opError (.opError (.syscallError (.errno .ECONNRESET)))) ∧
      (relay true eofAckCipher resetPlain).map
          (fun o => (o.n1, o.reuse, o.cipher.unusable, decide (markEvent ∈ o.mainEvents)))
        = some (100, true, false, false) := by
  decide

/-- C9 (as stated, refuted): the copy ends with EIO, neither FIN nor RST, the deadline
is set and the drain ends with RST, yet the down verdict is true. -/
theorem drain_rst_keeps_candidate :
    (copyBuffer .plaintxt .cipher idlePlain stallThenResetCipher).err
        = some (.opError (.errno (.other 5))) ∧
      FINRSTStreamErr (copyBuffer .plaintxt .cipher idlePlain stallThenResetCipher).err = false ∧
      (drainLoop .cipher stallThenResetCipher.final
        (copyBuffer .plaintxt .cipher idlePlain stallThenResetCipher).reads).1 = .RST ∧
      (downTask stallThenResetCipher idlePlain).map (fun d => d.res.TryReuse) = some true := by
  decide

/-- C10 (as stated, refuted): the cipher-to-plaintxt copy returns no error and the down
verdict is true, yet reuse is denied without the handshake being attempted, because
the FIN write of the up direction fails with EPIPE. -/
theorem clean_down_denied_without_handshake :
    (copyBuffer .plaintxt .cipher idlePlain eofBrokenFinCipher).err = none ∧
      (downTask eofBrokenFinCipher idlePlain).map (fun d => d.res.TryReuse) = some true ∧
      (relay true eofBrokenFinCipher idlePlain).map (fun o => (o.reuse, o.mainEvents))
        = some (false, [markEvent]) := by
  decide

/-! ## The theorems at sample sessions -/

/-- The counts of spec scenario 1: five bytes up and five bytes down. -/
theorem relay_counts_echo :
    echoCipher.kind = .cipherStream true ∧ echoPlain.kind = .tcpConn ∧
      ∃ out, relay false echoCipher echoPlain = some out ∧ out.n1 = 5 ∧ out.n2 = 5 := by
  obtain ⟨out, h, h1, h2⟩ := relay_counts false echoCipher echoPlain true rfl rfl
  exact ⟨rfl, rfl, out, h, by rw [h1]; rfl, by rw [h2]; rfl⟩

/-- A cipher side that ends with a plain end of stream: no deadline, no drain. -/
theorem down_clean_no_drain_eof :
    idlePlain.kind = .tcpConn ∧
      (copyBuffer .plaintxt .cipher idlePlain eofCipher).err = none ∧
      ∃ d, downTask eofCipher idlePlain = some d ∧ d.res.TryReuse = true ∧
        d.cipher.deadlines = eofCipher.deadlines ∧ d.cipher.reads = [] := by
  obtain ⟨d, hd, ht, _, hc, _⟩ := down_clean_no_drain eofCipher idlePlain rfl (by decide)
  exact ⟨rfl, by decide, d, hd, ht, by rw [hc], by rw [hc]; rfl⟩

/-- The down task of spec scenario 3: the copy ends with RST, the drain ends with the
same RST and the verdict is true. -/
theorem down_rst_verdict_scenario :
    resetCipher.kind = .cipherStream true ∧ idlePlain.kind = .tcpConn ∧
      (copyBuffer .plaintxt .cipher idlePlain resetCipher).err = some (.opError .RST) ∧
      ∃ d, downTask resetCipher idlePlain = some d ∧ d.res.Err = some (.opError .RST) ∧
        d.res.TryReuse = true := by
  obtain ⟨d, hd, he, ht, _⟩ := down_rst_verdict resetCipher idlePlain true rfl rfl (by decide)
  exact ⟨rfl, rfl, by decide, d, hd, he, ht.mpr (by decide)⟩

/-- The up task of spec scenario 4: the copy error is kept and the verdict follows the
FIN write. -/
theorem up_verdict_is_fin_write_scenario :
    eofAckCipher.kind = .cipherStream true ∧ resetPlain.kind = .tcpConn ∧
      ∃ (u : TaskOut) (out : RelayOut), relay true eofAckCipher resetPlain = some out ∧
        u.res.Err = some (.opError (.opError (.syscallError (.errno .ECONNRESET)))) ∧
        (u.res.TryReuse = true ↔ (nextResult eofAckCipher.rstWrites).1 = none) := by
  obtain ⟨_, u, out, _, _, ho, he, ht, _⟩ :=
    up_verdict_is_fin_write true eofAckCipher resetPlain true rfl rfl
  exact ⟨rfl, rfl, u, out, ho, by rw [he]; rfl, ht⟩

/-- A session whose cipher read fails with EIO and whose drain ends with RST. -/
theorem down_drain_verdict_scenario :
    stallThenResetCipher.kind = .cipherStream true ∧ idlePlain.kind = .tcpConn ∧
      (copyBuffer .plaintxt .cipher idlePlain stallThenResetCipher).err ≠ none ∧
      FINRSTStreamErr (copyBuffer .plaintxt .cipher idlePlain stallThenResetCipher).err = false ∧
      ∃ d, downTask stallThenResetCipher idlePlain = some d ∧
        (d.res.TryReuse = true ↔
          (nextResult stallThenResetCipher.deadlines).1 = none ∧
            ((drainLoop .cipher stallThenResetCipher.final
                (copyBuffer .plaintxt .cipher idlePlain stallThenResetCipher).reads).1 = .FIN ∨
              (drainLoop .cipher stallThenResetCipher.final
                (copyBuffer .plaintxt .cipher idlePlain stallThenResetCipher).reads).1 = .RST)) := by
  obtain ⟨d, hd, ht, _⟩ :=
    down_drain_verdict stallThenResetCipher idlePlain true rfl rfl (by decide) (by decide)
  exact ⟨rfl, rfl, by decide, by decide, d, hd, ht⟩

/-- The write-half calls of spec scenario 1 under every schedule. -/
theorem relay_half_close_order_echo :
    echoCipher.kind = .cipherStream true ∧ echoPlain.kind = .tcpConn ∧
      ∃ out, relay true echoCipher echoPlain = some out ∧
        ∀ sched : List Bool,
          (out.trace sched).filter plainWriteHalf =
            [⟨.plaintxt, .write 5⟩, ⟨.plaintxt, .closeWrite⟩] ∧
          (out.trace sched).filter cipherUpHalf =
            [⟨.cipher, .write 5⟩, ⟨.cipher, .writeRST .FIN⟩] := by
  obtain ⟨out, ho, _, _, h⟩ := relay_half_close_order true echoCipher echoPlain true rfl rfl
  refine ⟨rfl, rfl, out, ho, ?_⟩
  intro sched
  obtain ⟨h1, h2, _⟩ := h sched
  exact ⟨by rw [h1]; rfl, by rw [h2]; rfl⟩

/-- The marking call of spec scenario 1. -/
theorem relay_marks_iff_denied_echo :
    echoCipher.kind = .cipherStream true ∧ echoPlain.kind = .tcpConn ∧
      ∃ out, relay true echoCipher echoPlain = some out ∧
        (markEvent ∈ out.mainEvents ↔ out.reuse = false) := by
  obtain ⟨_, _, out, _, _, ho, hm, _⟩ :=
    relay_marks_iff_denied true echoCipher echoPlain true rfl rfl
  exact ⟨rfl, rfl, out, ho, hm⟩

end Easyss
